import Mathlib

/-!
Verification of the batch image-compression engine of `src/lib/compress.js`.

The JavaScript core is embedded shallowly:

* `compressOnce` and `downloadCompressed` perform one upload/download
  attempt.  The network is abstracted by an `UploadEvent` describing how the
  remote service answered this attempt; the local filesystem is a map from
  file names to byte lists.
* `compressImage` is the retry loop (`for attempt = 1 .. maxAttempts`); the
  arguments passed to `sleep` are recorded in the `delays` field, in
  milliseconds.
* `compressBatch` is modelled as a transition system over `BatchState`:
  `next` mirrors the admission loop, `completeTask` the body of a
  completion callback, and `Step` the single-threaded event loop firing one
  pending completion (completion order is nondeterministic).  The source's
  `running` counter always equals `active.length`, so only the list is kept.
-/

namespace TinyPng

/-- Filesystem model: each file name maps to its current byte content. -/
def FS : Type := String → List Nat

/-- Result of the follow-up GET that `downloadCompressed` issues: either the
transformed bytes arrive, or the request errors out. -/
inductive DownloadEvent
  | ok (bytes : List Nat)
  | err (msg : String)

/-- How the remote service answers one upload attempt.  `accepted dl` is a
201 response with a location header, after which `downloadCompressed` runs
with download result `dl`; `httpFailure st msg` is any other response with
status `st`, where `msg` is the message the code derives from the body;
`reqError msg` is a request-level network error. -/
inductive UploadEvent
  | accepted (dl : DownloadEvent)
  | httpFailure (status : Nat) (msg : String)
  | reqError (msg : String)

/-- The value `compressOnce` resolves with: fields `file`, `oldSize`,
`newSize`, `success`, `retryable`, `errorMsg`. -/
structure AttemptResult where
  file : String
  oldSize : Nat
  newSize : Nat
  success : Bool
  retryable : Bool
  errorMsg : Option String
deriving DecidableEq

/-- Source line 8: `NON_RETRYABLE_STATUS = new Set([401, 415])`. -/
def NON_RETRYABLE_STATUS : List Nat := [401, 415]

/-- Embedding of `downloadCompressed(url, auth, file, oldSize, resolve)`:
on success the downloaded bytes overwrite the file and `newSize` is the size
after the write-back; on a download error nothing is written and the failure
is retryable. -/
def downloadCompressed (fs : FS) (file : String) (oldSize : Nat) :
    DownloadEvent → AttemptResult × FS
  | .ok bytes =>
      (⟨file, oldSize, bytes.length, true, false, none⟩,
        fun f => if f = file then bytes else fs f)
  | .err m => (⟨file, oldSize, oldSize, false, true, some m⟩, fs)

/-- Embedding of `compressOnce(file, apiKey)`: one attempt.  `oldSize` is the
file's size before the attempt; a 201-with-location response hands over to
`downloadCompressed`; any other response is a failure whose retryability is
decided by `NON_RETRYABLE_STATUS`; request errors are always retryable. -/
def compressOnce (fs : FS) (file : String) : UploadEvent → AttemptResult × FS
  | .accepted dl => downloadCompressed fs file (fs file).length dl
  | .httpFailure st m =>
      (⟨file, (fs file).length, (fs file).length, false,
        !(NON_RETRYABLE_STATUS.contains st), some m⟩, fs)
  | .reqError m =>
      (⟨file, (fs file).length, (fs file).length, false, true, some m⟩, fs)

/-- What one `compressImage` call produced: its resolved result, the
filesystem afterwards, the number of attempts performed, and the list of
arguments passed to `sleep` (milliseconds), in order. -/
structure ImageRun where
  result : AttemptResult
  fs : FS
  attempts : Nat
  delays : List Nat

/-- The body of `compressImage`'s `for` loop.  `attempt` is the current
1-based attempt number and `rem` the number of further attempts still
allowed (`rem = maxAttempts - attempt`), so `rem = 0` is the
`attempt === maxAttempts` exit; a failed retryable non-final attempt sleeps
`attempt * 1000` milliseconds and loops with the next attempt's event. -/
def runAttempts (file : String) (env : Nat → UploadEvent) :
    FS → Nat → Nat → ImageRun
  | fs, attempt, rem =>
    let r := compressOnce fs file (env attempt)
    if r.1.success then ⟨r.1, r.2, 1, []⟩
    else if !r.1.retryable then ⟨r.1, r.2, 1, []⟩
    else
      match rem with
      | 0 => ⟨r.1, r.2, 1, []⟩
      | rem' + 1 =>
        let rest := runAttempts file env r.2 (attempt + 1) rem'
        ⟨rest.result, rest.fs, rest.attempts + 1, attempt * 1000 :: rest.delays⟩

/-- Embedding of `compressImage(file, apiKey, progress, retries)`.  The line
`maxAttempts = (retries || 0) + 1` treats both an omitted argument
(`retries = none`, JavaScript `undefined`) and an explicit 0 as 0. -/
def compressImage (fs : FS) (file : String) (env : Nat → UploadEvent)
    (retries : Option Nat) : ImageRun :=
  let maxAttempts := (retries.getD 0) + 1
  runAttempts file env fs 1 (maxAttempts - 1)

/-- Source line 125: `maxConcurrency = maxConcurrency || 5` (an omitted
argument and the falsy value 0 both fall back to 5). -/
def batchConcurrency : Option Nat → Nat
  | none => 5
  | some 0 => 5
  | some (k + 1) => k + 1

/-- Source line 126: `retries = retries !== undefined ? retries : 3` (only
an omitted argument falls back to 3; an explicit 0 is kept). -/
def batchRetries : Option Nat → Nat
  | none => 3
  | some r => r

/-- An upload answer on which the attempt fails and the failure is
classified retryable by `compressOnce`. -/
def failsRetryable : UploadEvent → Bool
  | .accepted (.ok _) => false
  | .accepted (.err _) => true
  | .httpFailure st _ => !(NON_RETRYABLE_STATUS.contains st)
  | .reqError _ => true

lemma compressOnce_failsRetryable (fs : FS) (file : String) (ev : UploadEvent)
    (h : failsRetryable ev = true) :
    (compressOnce fs file ev).1.success = false ∧
    (compressOnce fs file ev).1.retryable = true ∧
    (compressOnce fs file ev).2 = fs := by
  cases ev with
  | accepted dl =>
    cases dl with
    | ok bytes => simp [failsRetryable] at h
    | err m => simp [compressOnce, downloadCompressed]
  | httpFailure st m =>
    refine ⟨rfl, ?_, rfl⟩
    simp only [failsRetryable] at h
    simpa [compressOnce] using h
  | reqError m => exact ⟨rfl, rfl, rfl⟩

/-- When every attempt fails with a retryable error, the loop runs all the
way down: `rem + 1` attempts happen, the filesystem is untouched, the
result is the last attempt's, and the sleeps are
`attempt * 1000, (attempt+1) * 1000, ...`. -/
lemma runAttempts_allFail (file : String) (env : Nat → UploadEvent)
    (h : ∀ a, failsRetryable (env a) = true) :
    ∀ (rem : Nat) (fs : FS) (attempt : Nat),
      runAttempts file env fs attempt rem =
        ⟨(compressOnce fs file (env (attempt + rem))).1, fs, rem + 1,
          (List.range' attempt rem).map fun a => a * 1000⟩ := by
  intro rem
  induction rem with
  | zero =>
    intro fs attempt
    obtain ⟨hs, hr, hfs⟩ := compressOnce_failsRetryable fs file (env attempt) (h attempt)
    simp only [runAttempts, hs, hr, Bool.not_true, if_false, hfs]
    rfl
  | succ rem' ih =>
    intro fs attempt
    obtain ⟨hs, hr, hfs⟩ := compressOnce_failsRetryable fs file (env attempt) (h attempt)
    simp only [runAttempts, hs, hr, Bool.not_true, if_false, hfs]
    rw [ih fs (attempt + 1)]
    have harith : attempt + 1 + rem' = attempt + (rem' + 1) := by omega
    simp only [harith, List.range'_succ]
    rfl

/-- The value `compressBatch` resolves with. -/
structure BatchSummary where
  totalOldSize : Nat
  totalNewSize : Nat
  failCount : Nat
  results : List AttemptResult
deriving DecidableEq

/-- Source lines 146-149: the summary built when the last result arrives
(the two `reduce` folds and the `filter` count over `results`). -/
def mkSummary (results : List AttemptResult) : BatchSummary :=
  { totalOldSize := results.foldl (fun sum r => sum + r.oldSize) 0
    totalNewSize := results.foldl (fun sum r => sum + r.newSize) 0
    failCount := (results.filter fun r => !r.success).length
    results := results }

/-- State of one `compressBatch` run: `index` is the next file index to
admit, `active` lists the indices whose `compressImage` promise is still
pending in admission order (the source's `running` counter is its length),
`results` holds the pushed results in completion order, and `resolved` is
the value passed to `resolve`, if any. -/
structure BatchState where
  index : Nat
  active : List Nat
  results : List AttemptResult
  resolved : Option BatchSummary
deriving DecidableEq

/-- The `while (running < maxConcurrency && index < files.length)` admission
loop in `next()`.  `fuel` bounds the iterations; `next` supplies
`total - index`, enough to reach one of the two loop bounds. -/
def nextLoop (K total : Nat) : Nat → BatchState → BatchState
  | 0, s => s
  | fuel + 1, s =>
    if s.active.length < K ∧ s.index < total then
      nextLoop K total fuel
        { s with index := s.index + 1, active := s.active ++ [s.index] }
    else s

/-- One call to `next()`. -/
def next (K total : Nat) (s : BatchState) : BatchState :=
  nextLoop K total (total - s.index) s

/-- The state of `compressBatch` right after its synchronous part: counters
zeroed, then the initial `next()` call. -/
def initState (K total : Nat) : BatchState :=
  next K total ⟨0, [], [], none⟩

/-- The body of a completion callback for admitted index `i`, before its
trailing `next()` call: `running--`, `results.push(result)` and, exactly
when every file now has a result, `resolve` with the summary.  `runFile`
gives the settled result of index `i`'s `compressImage` promise. -/
def completeTask (total : Nat) (runFile : Nat → AttemptResult)
    (s : BatchState) (i : Nat) : BatchState :=
  let results := s.results ++ [runFile i]
  { index := s.index
    active := s.active.erase i
    results := results
    resolved :=
      if results.length = total then some (mkSummary results) else s.resolved }

/-- Event-loop semantics of a batch: some pending `compressImage` promise,
for admitted index `i`, settles and its callback (completion bookkeeping,
then `next()`) runs atomically.  Completion order is nondeterministic. -/
inductive Step (K total : Nat) (runFile : Nat → AttemptResult) :
    BatchState → BatchState → Prop
  | complete (s : BatchState) (i : Nat) (h : i ∈ s.active) :
      Step K total runFile s (next K total (completeTask total runFile s i))

/-- The states a `compressBatch` run over `total` files can be in. -/
def Reachable (K total : Nat) (runFile : Nat → AttemptResult)
    (s : BatchState) : Prop :=
  Relation.ReflTransGen (Step K total runFile) (initState K total) s

/-- The outcome function `compressBatch` schedules: index `i` runs
`compressImage` on `files[i]` with the defaulted retry budget.  Each
controller invocation owns its file exclusively (no two invocations touch
the same file), so it is run against the filesystem at admission. -/
def batchRunFile (files : List String) (fs : FS)
    (env : String → Nat → UploadEvent) (retries : Option Nat) :
    Nat → AttemptResult :=
  fun i =>
    (compressImage fs (files.getD i "") (env (files.getD i ""))
      (some (batchRetries retries))).result

/-- Source lines 164-165 of `printSummary`: the ratio
`totalOldSize ? ((totalSaved / totalOldSize) * 100).toFixed(2) : 0`, as the
exact rational value before display rounding (`0` is falsy in the guard). -/
def totalPercent (totalOldSize totalNewSize : Nat) : ℚ :=
  if totalOldSize ≠ 0 then
    (((totalOldSize : ℚ) - totalNewSize) / totalOldSize) * 100
  else 0

/-- Display rounding of `toFixed(2)`: the value in hundredths, rounded to
the nearest integer (this matches `Number.prototype.toFixed` for the values
checked here, which are far from rounding ties). -/
def toFixed2 (q : ℚ) : ℤ := round (q * 100)

lemma nextLoop_results (K total : Nat) :
    ∀ (fuel : Nat) (s : BatchState), (nextLoop K total fuel s).results = s.results := by
  intro fuel
  induction fuel with
  | zero => intro s; rfl
  | succ fuel ih =>
    intro s
    by_cases hc : s.active.length < K ∧ s.index < total
    · rw [nextLoop, if_pos hc]; exact ih _
    · rw [nextLoop, if_neg hc]

lemma nextLoop_resolved (K total : Nat) :
    ∀ (fuel : Nat) (s : BatchState), (nextLoop K total fuel s).resolved = s.resolved := by
  intro fuel
  induction fuel with
  | zero => intro s; rfl
  | succ fuel ih =>
    intro s
    by_cases hc : s.active.length < K ∧ s.index < total
    · rw [nextLoop, if_pos hc]; exact ih _
    · rw [nextLoop, if_neg hc]

lemma nextLoop_index_le (K total : Nat) :
    ∀ (fuel : Nat) (s : BatchState), s.index ≤ total →
      (nextLoop K total fuel s).index ≤ total := by
  intro fuel
  induction fuel with
  | zero => intro s h; exact h
  | succ fuel ih =>
    intro s h
    by_cases hc : s.active.length < K ∧ s.index < total
    · rw [nextLoop, if_pos hc]
      exact ih _ (by show s.index + 1 ≤ total; omega)
    · rw [nextLoop, if_neg hc]; exact h

lemma nextLoop_active_le (K total : Nat) :
    ∀ (fuel : Nat) (s : BatchState), s.active.length ≤ K →
      (nextLoop K total fuel s).active.length ≤ K := by
  intro fuel
  induction fuel with
  | zero => intro s h; exact h
  | succ fuel ih =>
    intro s h
    by_cases hc : s.active.length < K ∧ s.index < total
    · rw [nextLoop, if_pos hc]
      exact ih _ (by simpa using hc.1)
    · rw [nextLoop, if_neg hc]; exact h

lemma nextLoop_saturates (K total : Nat) :
    ∀ (fuel : Nat) (s : BatchState), total ≤ s.index + fuel →
      (nextLoop K total fuel s).index < total →
      K ≤ (nextLoop K total fuel s).active.length := by
  intro fuel
  induction fuel with
  | zero =>
    intro s h1 h2
    rw [nextLoop] at h2
    exact absurd h2 (by omega)
  | succ fuel ih =>
    intro s h1
    by_cases hc : s.active.length < K ∧ s.index < total
    · rw [nextLoop, if_pos hc]
      exact ih _ (by show total ≤ s.index + 1 + fuel; omega)
    · rw [nextLoop, if_neg hc]
      intro h2
      rcases not_and_or.mp hc with h | h
      · omega
      · exact absurd h2 h

lemma nextLoop_perm (K total : Nat) :
    ∀ (fuel : Nat) (s : BatchState) (done : List Nat),
      (done ++ s.active).Perm (List.range s.index) →
      (done ++ (nextLoop K total fuel s).active).Perm
        (List.range (nextLoop K total fuel s).index) := by
  intro fuel
  induction fuel with
  | zero => intro s done h; exact h
  | succ fuel ih =>
    intro s done h
    by_cases hc : s.active.length < K ∧ s.index < total
    · rw [nextLoop, if_pos hc]
      refine ih _ done ?_
      simp only [List.range_succ, ← List.append_assoc]
      exact h.append (List.Perm.refl [s.index])
    · rw [nextLoop, if_neg hc]; exact h

lemma nextLoop_of_full (K total fuel : Nat) (s : BatchState)
    (h : K ≤ s.active.length) : nextLoop K total fuel s = s := by
  cases fuel with
  | zero => rfl
  | succ fuel => rw [nextLoop, if_neg (by omega)]

lemma nextLoop_of_done (K total fuel : Nat) (s : BatchState)
    (h : total ≤ s.index) : nextLoop K total fuel s = s := by
  cases fuel with
  | zero => rfl
  | succ fuel => rw [nextLoop, if_neg (by omega)]

lemma nextLoop_admits_all (K total : Nat) :
    ∀ (fuel : Nat) (s : BatchState), s.index ≤ total →
      s.active.length + (total - s.index) ≤ K → total ≤ s.index + fuel →
      nextLoop K total fuel s =
        ⟨total, s.active ++ List.range' s.index (total - s.index),
          s.results, s.resolved⟩ := by
  intro fuel
  induction fuel with
  | zero =>
    intro s h1 h2 h3
    have hidx : s.index = total := by omega
    rw [nextLoop]
    cases s with
    | mk i a r v => simp_all
  | succ fuel ih =>
    intro s h1 h2 h3
    by_cases hlt : s.index < total
    · have hc : s.active.length < K ∧ s.index < total := ⟨by omega, hlt⟩
      rw [nextLoop, if_pos hc]
      rw [ih _ (by show s.index + 1 ≤ total; omega)
        (by show (s.active ++ [s.index]).length + (total - (s.index + 1)) ≤ K
            rw [List.length_append, List.length_singleton]
            omega)
        (by show total ≤ s.index + 1 + fuel; omega)]
      have hn : total - s.index = (total - (s.index + 1)) + 1 := by omega
      simp only [List.append_assoc, List.singleton_append]
      rw [hn, List.range'_succ]
    · have hidx : s.index = total := by omega
      rw [nextLoop, if_neg (by omega)]
      cases s with
      | mk i a r v => simp_all

lemma next_results (K total : Nat) (s : BatchState) :
    (next K total s).results = s.results := nextLoop_results K total _ s

lemma next_resolved (K total : Nat) (s : BatchState) :
    (next K total s).resolved = s.resolved := nextLoop_resolved K total _ s

lemma next_of_done (K total : Nat) (s : BatchState) (h : total ≤ s.index) :
    next K total s = s := nextLoop_of_done K total _ s h

/-- The master invariant of a batch run over `total` files: the admission
index never overshoots, the in-flight set respects the concurrency cap and
is saturated while files are pending, every admitted index is either done
exactly once or in flight exactly once, and the resolve value is produced
exactly at, and faithfully from, the full result list. -/
def Inv (K total : Nat) (runFile : Nat → AttemptResult) (s : BatchState) : Prop :=
  s.index ≤ total ∧
  s.active.length ≤ K ∧
  (s.index < total → K ≤ s.active.length) ∧
  (∃ done : List Nat,
      (done ++ s.active).Perm (List.range s.index) ∧
      s.results = done.map runFile) ∧
  (∀ sum, s.resolved = some sum →
      s.results.length = total ∧ sum = mkSummary s.results) ∧
  (s.resolved = none → 0 < total → s.results.length ≠ total)

lemma Inv_initState (K total : Nat) (runFile : Nat → AttemptResult) :
    Inv K total runFile (initState K total) := by
  have hres : (initState K total).results = [] := next_results K total _
  have hval : (initState K total).resolved = none := next_resolved K total _
  refine ⟨nextLoop_index_le K total _ _ (Nat.zero_le total),
    nextLoop_active_le K total _ _ (Nat.zero_le K),
    fun h => nextLoop_saturates K total _ _ (by omega) h,
    ⟨[], ?_, by rw [hres]; rfl⟩, ?_, ?_⟩
  · exact nextLoop_perm K total _ _ [] (by simp)
  · intro sum hsum
    rw [hval] at hsum
    cases hsum
  · intro _ htot
    rw [hres, List.length_nil]
    omega

lemma Inv_step (K total : Nat) (runFile : Nat → AttemptResult)
    (s t : BatchState) (hs : Inv K total runFile s)
    (hstep : Step K total runFile s t) : Inv K total runFile t := by
  obtain ⟨hidx, hlen, hsat, ⟨done, hperm, hres⟩, hsome, hnone⟩ := hs
  cases hstep with
  | complete i hi =>
    have herase : (s.active.erase i).length = s.active.length - 1 :=
      List.length_erase_of_mem hi
    have hactpos : 0 < s.active.length := List.length_pos_of_mem hi
    have hcount : done.length + s.active.length = s.index := by
      have := hperm.length_eq
      simpa using this
    have hrlen : s.results.length = done.length := by rw [hres]; simp
    -- the run cannot already have resolved: that would need an empty active set
    have hunres : s.resolved = none := by
      cases hval : s.resolved with
      | none => rfl
      | some sum =>
        have := (hsome sum hval).1
        omega
    have hpermc : ((done ++ [i]) ++ s.active.erase i).Perm (List.range s.index) := by
      have h1 : ((done ++ [i]) ++ s.active.erase i).Perm (done ++ s.active) := by
        rw [List.append_assoc, List.singleton_append]
        exact (List.Perm.refl done).append (List.perm_cons_erase hi).symm
      exact h1.trans hperm
    have hresc : s.results ++ [runFile i] = (done ++ [i]).map runFile := by
      rw [hres, List.map_append]
      rfl
    constructor
    · exact nextLoop_index_le K total _ _ hidx
    constructor
    · exact nextLoop_active_le K total _ _ (by simp [completeTask, herase]; omega)
    constructor
    · exact fun h => nextLoop_saturates K total _ _ (by omega) h
    constructor
    · exact ⟨done ++ [i],
        nextLoop_perm K total _ _ (done ++ [i]) (by simpa [completeTask] using hpermc),
        by rw [next_results]; simpa [completeTask] using hresc⟩
    · rw [next_results, next_resolved]
      by_cases hfull : (s.results ++ [runFile i]).length = total
      · constructor
        · intro sum hsum
          simp only [completeTask, if_pos hfull] at hsum ⊢
          cases hsum
          exact ⟨hfull, rfl⟩
        · intro habs
          simp only [completeTask, if_pos hfull] at habs
          exact Option.noConfusion habs
      · constructor
        · intro sum hsum
          simp only [completeTask, if_neg hfull] at hsum
          rw [hunres] at hsum
          cases hsum
        · intro _ _
          simpa [completeTask] using hfull

lemma Inv_reachable (K total : Nat) (runFile : Nat → AttemptResult)
    (s : BatchState) (h : Reachable K total runFile s) :
    Inv K total runFile s := by
  unfold Reachable at h
  induction h with
  | refl => exact Inv_initState K total runFile
  | tail _ hstep ih => exact Inv_step K total runFile _ _ ih hstep

lemma next_one (total : Nat) (s : BatchState) (ha : s.active = [])
    (hidx : s.index < total) :
    next 1 total s = { s with index := s.index + 1, active := [s.index] } := by
  unfold next
  have hfuel : total - s.index = (total - s.index - 1) + 1 := by omega
  rw [hfuel, nextLoop, if_pos ⟨by rw [ha]; simp, hidx⟩, ha]
  exact nextLoop_of_full _ _ _ _ (by simp)

/-- With `maxConcurrency = 1` the scheduler is strictly sequential: the
result list is always a prefix-in-order image of the input indices, at most
one promise is pending, and it is the one for the next index in order. -/
def Inv1 (total : Nat) (runFile : Nat → AttemptResult) (s : BatchState) : Prop :=
  s.results = (List.range s.results.length).map runFile ∧
  s.index = s.results.length + s.active.length ∧
  (s.active = [] ∨ s.active = [s.results.length]) ∧
  s.index ≤ total

lemma Inv1_initState (total : Nat) (runFile : Nat → AttemptResult) :
    Inv1 total runFile (initState 1 total) := by
  by_cases h : 0 < total
  · rw [initState, next_one total ⟨0, [], [], none⟩ rfl h]
    exact ⟨rfl, rfl, Or.inr rfl, by show 0 + 1 ≤ total; omega⟩
  · have h0 : total = 0 := by omega
    subst h0
    rw [initState, next_of_done 1 0 _ (by omega)]
    exact ⟨rfl, rfl, Or.inl rfl, Nat.le_refl 0⟩

lemma Inv1_step (total : Nat) (runFile : Nat → AttemptResult) (s t : BatchState)
    (hinv : Inv1 total runFile s) (hstep : Step 1 total runFile s t) :
    Inv1 total runFile t := by
  obtain ⟨hres, hidx, hact, hle⟩ := hinv
  cases hstep with
  | complete i hi =>
    rcases hact with h0 | h1'
    · rw [h0] at hi
      cases hi
    · rw [h1'] at hi
      have hieq : i = s.results.length := by simpa using hi
      have hcres : (completeTask total runFile s i).results =
          (List.range (s.results.length + 1)).map runFile := by
        simp only [completeTask]
        rw [List.range_succ, List.map_append, ← hres, hieq]
        rfl
      have hclen : (completeTask total runFile s i).results.length =
          s.results.length + 1 := by
        simp [completeTask]
      have hcact : (completeTask total runFile s i).active = [] := by
        simp [completeTask, h1', hieq]
      have hcidx : (completeTask total runFile s i).index =
          s.results.length + 1 := by
        simp only [completeTask]
        rw [hidx, h1']
        simp
      have hsl : s.active.length = 1 := by rw [h1']; rfl
      by_cases hlt : (completeTask total runFile s i).index < total
      · rw [next_one total _ hcact hlt]

        refine ⟨?_, ?_, ?_, ?_⟩
        · show (completeTask total runFile s i).results =
            (List.range (completeTask total runFile s i).results.length).map runFile
          rw [hclen, hcres]
        · show (completeTask total runFile s i).index + 1 =
            (completeTask total runFile s i).results.length + 1
          rw [hcidx, hclen]
        · refine Or.inr ?_
          show [(completeTask total runFile s i).index] =
            [(completeTask total runFile s i).results.length]
          rw [hcidx, hclen]
        · show (completeTask total runFile s i).index + 1 ≤ total
          omega
      · rw [next_of_done 1 total _ (by omega)]
        refine ⟨?_, ?_, Or.inl hcact, by omega⟩
        · rw [hclen, hcres]
        · rw [hcidx, hclen, hcact]
          simp

lemma Inv1_reachable (total : Nat) (runFile : Nat → AttemptResult)
    (s : BatchState) (h : Reachable 1 total runFile s) :
    Inv1 total runFile s := by
  unfold Reachable at h
  induction h with
  | refl => exact Inv1_initState total runFile
  | tail _ hstep ih => exact Inv1_step total runFile _ _ ih hstep

/-- When the cap is at least the file count, the initial `next()` admits
every file at once: unbounded parallelism. -/
lemma initState_all (K total : Nat) (h : total ≤ K) :
    initState K total = ⟨total, List.range total, [], none⟩ := by
  rw [initState, next]
  rw [nextLoop_admits_all K total _ _ (by simp) (by simp; omega) (by simp)]
  simp [List.range_eq_range']

/-- After every file is admitted, the transition relation no longer depends
on the concurrency cap. -/
lemma step_indep (K K' total : Nat) (runFile : Nat → AttemptResult)
    (s t : BatchState) (hidx : total ≤ s.index) :
    Step K total runFile s t ↔ Step K' total runFile s t := by
  have key : ∀ A B : Nat, Step A total runFile s t → Step B total runFile s t := by
    intro A B h
    cases h with
    | complete i hi =>
      have hB := @Step.complete B total runFile s i hi
      rw [next_of_done A total _
        (show total ≤ (completeTask total runFile s i).index from hidx)]
      rwa [next_of_done B total _
        (show total ≤ (completeTask total runFile s i).index from hidx)] at hB
  exact ⟨key K K', key K' K⟩

lemma runAttempts_stop (file : String) (env : Nat → UploadEvent) (fs : FS)
    (attempt rem : Nat)
    (hr : (compressOnce fs file (env attempt)).1.retryable = false) :
    runAttempts file env fs attempt rem =
      ⟨(compressOnce fs file (env attempt)).1,
        (compressOnce fs file (env attempt)).2, 1, []⟩ := by
  by_cases hs : (compressOnce fs file (env attempt)).1.success = true
  · cases rem <;> simp only [runAttempts, hs, if_true]
  · cases rem <;> simp only [runAttempts, hs, if_false, hr, Bool.not_false, if_true] <;> simp

lemma foldl_add_map (f : AttemptResult → Nat) :
    ∀ (l : List AttemptResult) (n : Nat),
      l.foldl (fun sum r => sum + f r) n = n + (l.map f).sum := by
  intro l
  induction l with
  | nil => intro n; simp
  | cons a l ih =>
    intro n
    simp only [List.foldl_cons, List.map_cons, List.sum_cons, ih]
    omega

/-- C9: the saved-percentage computation in `printSummary` is guarded
against division by zero: whenever `totalOldSize` is 0 the reported
percentage saved is 0, for every `totalNewSize`. -/
theorem percent_division_guard (totalNewSize : Nat) :
    totalPercent 0 totalNewSize = 0 := by
  simp [totalPercent]

/-- C10: `compressImage` with the `retries` argument omitted (JavaScript
`undefined`, here `none`) or 0 performs exactly one attempt; the documented
default budget of 3 is applied only by `compressBatch` (`batchRetries`),
which passes `some 3` on to each per-file run. -/
theorem compressImage_default_no_retries :
    (∀ (fs : FS) (file : String) (env : Nat → UploadEvent),
        (compressImage fs file env none).attempts = 1) ∧
    (∀ (fs : FS) (file : String) (env : Nat → UploadEvent),
        (compressImage fs file env (some 0)).attempts = 1) ∧
    batchRetries none = 3 ∧
    (∀ (files : List String) (fs : FS) (env : String → Nat → UploadEvent)
        (i : Nat),
        batchRunFile files fs env none i =
          (compressImage fs (files.getD i "")
            (env (files.getD i "")) (some 3)).result) := by
  refine ⟨?_, ?_, rfl, fun files fs env i => rfl⟩ <;>
  · intro fs file env
    show (runAttempts file env fs 1 0).attempts = 1
    rw [runAttempts]
    split
    · rfl
    · split
      · rfl
      · rfl

/-- C8: the batch summary's `totalOldSize` is the sum of the `oldSize`
fields, `totalNewSize` the sum of the `newSize` fields, and `failCount` the
number of unsuccessful results; on outcomes with oldSizes 1000 and 2000 and
newSizes 500 and 2000, the second failed, it is 3000 / 2500 / 1 failed and
the displayed saved ratio rounds to 16.67 percent. -/
theorem summary_totals_correct :
    (∀ results : List AttemptResult,
        (mkSummary results).totalOldSize =
          (results.map fun r => r.oldSize).sum ∧
        (mkSummary results).totalNewSize =
          (results.map fun r => r.newSize).sum ∧
        (mkSummary results).failCount =
          (results.filter fun r => !r.success).length) ∧
    (mkSummary [⟨"a.png", 1000, 500, true, false, none⟩,
        ⟨"b.png", 2000, 2000, false, true, some "failed"⟩]).totalOldSize
      = 3000 ∧
    (mkSummary [⟨"a.png", 1000, 500, true, false, none⟩,
        ⟨"b.png", 2000, 2000, false, true, some "failed"⟩]).totalNewSize
      = 2500 ∧
    (mkSummary [⟨"a.png", 1000, 500, true, false, none⟩,
        ⟨"b.png", 2000, 2000, false, true, some "failed"⟩]).failCount = 1 ∧
    toFixed2 (totalPercent 3000 2500) = 1667 := by
  refine ⟨fun results => ⟨?_, ?_, rfl⟩, rfl, rfl, rfl, ?_⟩
  · simpa using foldl_add_map (fun r => r.oldSize) results 0
  · simpa using foldl_add_map (fun r => r.newSize) results 0
  · simp only [toFixed2, totalPercent]
    norm_num [round_eq]

/-- C5: a file whose every attempt fails with a retryable error receives
exactly `retries + 1` attempts; before retry `a + 1` the code sleeps
`a * 1000` milliseconds (`a` seconds, linearly for `a = 1 .. retries`), and
the call returns the final attempt's failure result. -/
theorem retry_budget_exhaustion (fs : FS) (file : String)
    (env : Nat → UploadEvent) (retries : Nat)
    (h : ∀ a, failsRetryable (env a) = true) :
    (compressImage fs file env (some retries)).attempts = retries + 1 ∧
    (compressImage fs file env (some retries)).delays =
      (List.range' 1 retries).map (fun a => a * 1000) ∧
    (compressImage fs file env (some retries)).result =
      (compressOnce fs file (env (retries + 1))).1 ∧
    (compressImage fs file env (some retries)).result.success = false := by
  have himg : compressImage fs file env (some retries) =
      runAttempts file env fs 1 retries := rfl
  rw [himg, runAttempts_allFail file env h retries fs 1]
  have harith : 1 + retries = retries + 1 := by omega
  rw [harith]
  exact ⟨rfl, rfl, rfl, (compressOnce_failsRetryable fs file _ (h _)).1⟩

/-- Witness for `retry_budget_exhaustion`: a socket error on every attempt
with a budget of 2 retries gives 3 attempts and sleeps of 1 s then 2 s. -/
theorem retry_budget_exhaustion_witness :
    (compressImage (fun _ => []) "a.png"
        (fun _ => .reqError "socket hang up") (some 2)).attempts = 2 + 1 ∧
    (compressImage (fun _ => []) "a.png"
        (fun _ => .reqError "socket hang up") (some 2)).delays =
      (List.range' 1 2).map (fun a => a * 1000) ∧
    (compressImage (fun _ => []) "a.png"
        (fun _ => .reqError "socket hang up") (some 2)).result =
      (compressOnce (fun _ => []) "a.png"
        (.reqError "socket hang up")).1 ∧
    (compressImage (fun _ => []) "a.png"
        (fun _ => .reqError "socket hang up") (some 2)).result.success
      = false :=
  retry_budget_exhaustion (fun _ => []) "a.png"
    (fun _ => .reqError "socket hang up") 2 (fun _ => rfl)

/-- C6: a failed attempt is classified non-retryable exactly when the
response status is 401 or 415; download errors and request-level network
errors are retryable; and when the first attempt's result is non-retryable,
`compressImage` performs exactly 1 attempt whatever the remaining budget. -/
theorem nonretryable_short_circuit (fs : FS) (file : String) (st : Nat)
    (m : String) (env : Nat → UploadEvent) (retries : Option Nat) :
    ((compressOnce fs file (.httpFailure st m)).1.retryable = false ↔
      st = 401 ∨ st = 415) ∧
    (compressOnce fs file (.httpFailure st m)).1.success = false ∧
    (compressOnce fs file (.reqError m)).1.retryable = true ∧
    (compressOnce fs file (.accepted (.err m))).1.retryable = true ∧
    ((compressOnce fs file (env 1)).1.retryable = false →
      (compressImage fs file env retries).attempts = 1 ∧
      (compressImage fs file env retries).result =
        (compressOnce fs file (env 1)).1) := by
  refine ⟨?_, rfl, rfl, rfl, ?_⟩
  · simp only [compressOnce, NON_RETRYABLE_STATUS]
    simp
    tauto
  · intro hnr
    have himg : compressImage fs file env retries =
        runAttempts file env fs 1 (retries.getD 0 + 1 - 1) := rfl
    rw [himg, runAttempts_stop file env fs 1 _ hnr]
    exact ⟨rfl, rfl⟩

/-- Witness for `nonretryable_short_circuit`: an HTTP 401 on the first
attempt with 3 retries still in budget stops after a single attempt. -/
theorem nonretryable_short_circuit_witness :
    ((compressOnce (fun _ => []) "a.png"
        (.httpFailure 401 "Unauthorized")).1.retryable = false ↔
      (401 : Nat) = 401 ∨ (401 : Nat) = 415) ∧
    (compressOnce (fun _ => []) "a.png"
        (.httpFailure 401 "Unauthorized")).1.success = false ∧
    (compressOnce (fun _ => []) "a.png"
        (.reqError "Unauthorized")).1.retryable = true ∧
    (compressOnce (fun _ => []) "a.png"
        (.accepted (.err "Unauthorized"))).1.retryable = true ∧
    ((compressOnce (fun _ => []) "a.png"
        ((fun _ => .httpFailure 401 "Unauthorized") (1 : Nat))).1.retryable
        = false →
      (compressImage (fun _ => []) "a.png"
        (fun _ => .httpFailure 401 "Unauthorized") (some 3)).attempts = 1 ∧
      (compressImage (fun _ => []) "a.png"
        (fun _ => .httpFailure 401 "Unauthorized") (some 3)).result =
        (compressOnce (fun _ => []) "a.png"
          ((fun _ => .httpFailure 401 "Unauthorized") (1 : Nat))).1) :=
  nonretryable_short_circuit (fun _ => []) "a.png" 401 "Unauthorized"
    (fun _ => .httpFailure 401 "Unauthorized") (some 3)

lemma compressOnce_success (fs : FS) (file : String) (ev : UploadEvent)
    (h : (compressOnce fs file ev).1.success = true) :
    ∃ bytes, ev = .accepted (.ok bytes) ∧
      (compressOnce fs file ev).1.newSize = bytes.length ∧
      (compressOnce fs file ev).2 file = bytes := by
  cases ev with
  | accepted dl =>
    cases dl with
    | ok bytes => exact ⟨bytes, rfl, rfl, by simp [compressOnce, downloadCompressed]⟩
    | err m => simp [compressOnce, downloadCompressed] at h
  | httpFailure st m => simp [compressOnce] at h
  | reqError m => simp [compressOnce] at h

lemma compressOnce_failure (fs : FS) (file : String) (ev : UploadEvent)
    (h : (compressOnce fs file ev).1.success = false) :
    (compressOnce fs file ev).2 = fs ∧
    (compressOnce fs file ev).1.newSize = (compressOnce fs file ev).1.oldSize := by
  cases ev with
  | accepted dl =>
    cases dl with
    | ok bytes => simp [compressOnce, downloadCompressed] at h
    | err m => exact ⟨rfl, rfl⟩
  | httpFailure st m => exact ⟨rfl, rfl⟩
  | reqError m => exact ⟨rfl, rfl⟩

lemma runAttempts_success (file : String) (env : Nat → UploadEvent) (fs : FS)
    (attempt rem : Nat)
    (hs : (compressOnce fs file (env attempt)).1.success = true) :
    runAttempts file env fs attempt rem =
      ⟨(compressOnce fs file (env attempt)).1,
        (compressOnce fs file (env attempt)).2, 1, []⟩ := by
  cases rem <;> simp only [runAttempts, hs, if_true]

lemma runAttempts_last (file : String) (env : Nat → UploadEvent) (fs : FS)
    (attempt : Nat)
    (hs : (compressOnce fs file (env attempt)).1.success = false) :
    runAttempts file env fs attempt 0 =
      ⟨(compressOnce fs file (env attempt)).1,
        (compressOnce fs file (env attempt)).2, 1, []⟩ := by
  simp only [runAttempts, hs, if_false]
  split <;> simp

lemma runAttempts_retry (file : String) (env : Nat → UploadEvent) (fs : FS)
    (attempt rem : Nat)
    (hs : (compressOnce fs file (env attempt)).1.success = false)
    (hr : (compressOnce fs file (env attempt)).1.retryable = true) :
    runAttempts file env fs attempt (rem + 1) =
      ⟨(runAttempts file env (compressOnce fs file (env attempt)).2
          (attempt + 1) rem).result,
        (runAttempts file env (compressOnce fs file (env attempt)).2
          (attempt + 1) rem).fs,
        (runAttempts file env (compressOnce fs file (env attempt)).2
          (attempt + 1) rem).attempts + 1,
        attempt * 1000 ::
          (runAttempts file env (compressOnce fs file (env attempt)).2
            (attempt + 1) rem).delays⟩ := by
  simp only [runAttempts, hs, if_false, hr, Bool.not_true]
  rfl

lemma runAttempts_fs_spec (file : String) (env : Nat → UploadEvent) :
    ∀ (rem : Nat) (fs : FS) (attempt : Nat),
      ((runAttempts file env fs attempt rem).result.success = true →
        ∃ a bytes, env a = .accepted (.ok bytes) ∧
          (runAttempts file env fs attempt rem).fs file = bytes ∧
          (runAttempts file env fs attempt rem).result.newSize =
            bytes.length) ∧
      ((runAttempts file env fs attempt rem).result.success = false →
        (runAttempts file env fs attempt rem).fs = fs ∧
        (runAttempts file env fs attempt rem).result.newSize =
          (runAttempts file env fs attempt rem).result.oldSize) := by
  intro rem
  induction rem with
  | zero =>
    intro fs attempt
    by_cases hs : (compressOnce fs file (env attempt)).1.success = true
    · rw [runAttempts_success file env fs attempt 0 hs]
      obtain ⟨bytes, hev, hnew, hwrite⟩ := compressOnce_success fs file _ hs
      exact ⟨fun _ => ⟨attempt, bytes, hev, hwrite, hnew⟩,
        fun hfail => absurd hs (by rw [hfail]; simp)⟩
    · have hs' : (compressOnce fs file (env attempt)).1.success = false := by
        simpa using hs
      rw [runAttempts_last file env fs attempt hs']
      obtain ⟨hfs, hnew⟩ := compressOnce_failure fs file _ hs'
      exact ⟨fun habs => absurd habs hs, fun _ => ⟨hfs, hnew⟩⟩
  | succ rem ih =>
    intro fs attempt
    by_cases hs : (compressOnce fs file (env attempt)).1.success = true
    · rw [runAttempts_success file env fs attempt (rem + 1) hs]
      obtain ⟨bytes, hev, hnew, hwrite⟩ := compressOnce_success fs file _ hs
      exact ⟨fun _ => ⟨attempt, bytes, hev, hwrite, hnew⟩,
        fun hfail => absurd hs (by rw [hfail]; simp)⟩
    · have hs' : (compressOnce fs file (env attempt)).1.success = false := by
        simpa using hs
      obtain ⟨hfs, hnew⟩ := compressOnce_failure fs file _ hs'
      by_cases hr : (compressOnce fs file (env attempt)).1.retryable = true
      · rw [runAttempts_retry file env fs attempt rem hs' hr, hfs]
        exact ih fs (attempt + 1)
      · have hr' : (compressOnce fs file (env attempt)).1.retryable = false := by
          simpa using hr
        rw [runAttempts_stop file env fs attempt (rem + 1) hr']
        exact ⟨fun habs => absurd habs hs, fun _ => ⟨hfs, hnew⟩⟩

/-- C7: `success = true` in a `compressImage` result means the remote
service accepted some attempt's upload and the bytes fetched from its
download location were persisted over the file, with `newSize` their
length; on an overall failure the filesystem is exactly as before and
`newSize = oldSize`. -/
theorem success_iff_written (fs : FS) (file : String)
    (env : Nat → UploadEvent) (retries : Option Nat) :
    ((compressImage fs file env retries).result.success = true →
      ∃ a bytes, env a = .accepted (.ok bytes) ∧
        (compressImage fs file env retries).fs file = bytes ∧
        (compressImage fs file env retries).result.newSize = bytes.length) ∧
    ((compressImage fs file env retries).result.success = false →
      (compressImage fs file env retries).fs = fs ∧
      (compressImage fs file env retries).result.newSize =
        (compressImage fs file env retries).result.oldSize) :=
  runAttempts_fs_spec file env (retries.getD 0 + 1 - 1) fs 1

/-- Witness for `success_iff_written`: a first-attempt acceptance with
2 bytes downloaded, and its success hypothesis discharged concretely. -/
theorem success_iff_written_witness :
    (compressImage (fun _ => [7, 7, 7]) "a.png"
        (fun _ => .accepted (.ok [1, 2])) none).result.success = true ∧
    ((compressImage (fun _ => [7, 7, 7]) "a.png"
        (fun _ => .accepted (.ok [1, 2])) none).result.success = true →
      ∃ (_ : Nat) (bytes : List Nat),
        UploadEvent.accepted (DownloadEvent.ok [1, 2]) =
          UploadEvent.accepted (.ok bytes) ∧
        (compressImage (fun _ => [7, 7, 7]) "a.png"
          (fun _ => .accepted (.ok [1, 2])) none).fs "a.png" = bytes ∧
        (compressImage (fun _ => [7, 7, 7]) "a.png"
          (fun _ => .accepted (.ok [1, 2])) none).result.newSize =
          bytes.length) :=
  ⟨rfl,
    (success_iff_written (fun _ => [7, 7, 7]) "a.png"
      (fun _ => .accepted (.ok [1, 2])) none).1⟩

/-- Concrete per-index outcome function used by the scheduler witnesses. -/
def witnessRunFile : Nat → AttemptResult :=
  fun i => ⟨(["a.png"] : List String).getD i "", 10, 4, true, false, none⟩

/-- C1: in every reachable state of a batch run at most `K` controller
invocations are in flight; with `K = 1` processing is strictly sequential
(the result list is always the per-index outcomes in input order); and a
cap of at least the file count admits every file in the initial `next()`
and behaves as unbounded parallelism (all later behavior is independent of
the cap). -/
theorem concurrency_bound (K total : Nat) (runFile : Nat → AttemptResult)
    (s : BatchState) :
    (Reachable K total runFile s → s.active.length ≤ K) ∧
    (Reachable 1 total runFile s →
      s.active.length ≤ 1 ∧
      s.results = (List.range s.results.length).map runFile) ∧
    (total ≤ K → initState K total = ⟨total, List.range total, [], none⟩) ∧
    (total ≤ s.index →
      ∀ K' t, Step K total runFile s t ↔ Step K' total runFile s t) := by
  refine ⟨?_, ?_, fun h => initState_all K total h,
    fun h K' t => step_indep K K' total runFile s t h⟩
  · intro h
    exact (Inv_reachable K total runFile s h).2.1
  · intro h
    obtain ⟨hres, hidx, hact, _⟩ := Inv1_reachable total runFile s h
    refine ⟨?_, hres⟩
    rcases hact with h0 | h1'
    · rw [h0]; simp
    · rw [h1']; simp

/-- Witness for `concurrency_bound`: the initial state of a 2-slot, 1-file
batch respects the cap, and a cap above the file count admits that file
immediately. -/
theorem concurrency_bound_witness :
    (initState 2 1).active.length ≤ 2 ∧
    initState 2 1 = ⟨1, List.range 1, [], none⟩ :=
  ⟨(concurrency_bound 2 1 witnessRunFile (initState 2 1)).1
      Relation.ReflTransGen.refl,
    (concurrency_bound 2 1 witnessRunFile (initState 2 1)).2.2.1 (by omega)⟩

/-- C2: when a batch over `files` resolves, the summary holds exactly one
result per input file: as many results as files, exactly the per-index
outcomes (each admitted index exactly once, so no file is scheduled
twice), and the results' `file` fields are a permutation of `files`. -/
theorem outcomes_exactly_once (K : Nat) (files : List String)
    (runFile : Nat → AttemptResult)
    (hfile : ∀ i, i < files.length → (runFile i).file = files.getD i "")
    (s : BatchState) (h : Reachable K files.length runFile s)
    (sum : BatchSummary) (hsum : s.resolved = some sum) :
    sum.results.length = files.length ∧
    sum.results.Perm ((List.range files.length).map runFile) ∧
    (sum.results.map fun r => r.file).Perm files := by
  obtain ⟨hidx, hlen, hsat, ⟨done, hperm, hres⟩, hsome, hnone⟩ :=
    Inv_reachable K files.length runFile s h
  obtain ⟨hrlen, hsumeq⟩ := hsome sum hsum
  have hdlen : done.length = files.length := by
    rw [hres] at hrlen
    simpa using hrlen
  have hcount : done.length + s.active.length = s.index := by
    simpa using hperm.length_eq
  have hact : s.active = [] := List.length_eq_zero.mp (by omega)
  have hidx_eq : s.index = files.length := by omega
  rw [hact, List.append_nil, hidx_eq] at hperm
  have hsumres : sum.results = s.results := by rw [hsumeq]; rfl
  have hperm2 : sum.results.Perm ((List.range files.length).map runFile) := by
    rw [hsumres, hres]
    exact hperm.map runFile
  have hmapfile :
      ((List.range files.length).map runFile).map (fun r => r.file) = files := by
    rw [List.map_map]
    apply List.ext_getElem
    · simp
    · intro i h1 h2
      simp only [List.getElem_map, List.getElem_range, Function.comp]
      rw [hfile i (by simpa using h1)]
      exact List.getD_eq_getElem files "" h2
  exact ⟨by rw [hsumres]; exact hrlen, hperm2,
    (hperm2.map fun r => r.file).trans (by rw [hmapfile])⟩

/-- Witness for `outcomes_exactly_once`: a 1-file batch with cap 1, driven
to resolution by firing its single pending completion. -/
theorem outcomes_exactly_once_witness :
    (mkSummary [witnessRunFile 0]).results.length =
      (["a.png"] : List String).length ∧
    (mkSummary [witnessRunFile 0]).results.Perm
      ((List.range (["a.png"] : List String).length).map witnessRunFile) ∧
    ((mkSummary [witnessRunFile 0]).results.map fun r => r.file).Perm
      ["a.png"] :=
  outcomes_exactly_once 1 ["a.png"] witnessRunFile (fun _ _ => rfl) _
    (Relation.ReflTransGen.tail Relation.ReflTransGen.refl
      (Step.complete (initState 1 1) 0 (by decide)))
    (mkSummary [witnessRunFile 0]) (by decide)

/-- C3: failures are recovered as data at every boundary: a failed attempt
result always carries an error message (nothing is thrown past
`compressOnce`, which is total); each scheduler step adds exactly one
result; from any unresolved reachable state of a nonempty batch a step is
still possible (no deadlock); never more than `total` results arrive, the
arrival of the last one forces resolution (so every maximal run resolves
after exactly `total` completions), and the resolved summary counts every
failed result in `failCount`. -/
theorem failures_recovered_as_data (K total : Nat)
    (runFile : Nat → AttemptResult) (s : BatchState) :
    (∀ (fs : FS) (file : String) (ev : UploadEvent),
        (compressOnce fs file ev).1.success = false →
        (compressOnce fs file ev).1.errorMsg.isSome = true) ∧
    (∀ t, Step K total runFile s t →
        t.results.length = s.results.length + 1) ∧
    (1 ≤ K → 1 ≤ total → Reachable K total runFile s →
      (s.resolved = none → ∃ t, Step K total runFile s t) ∧
      s.results.length ≤ total ∧
      (s.results.length = total → s.resolved.isSome = true) ∧
      (∀ sum, s.resolved = some sum →
        sum.failCount = (s.results.filter fun r => !r.success).length)) := by
  refine ⟨?_, ?_, ?_⟩
  · intro fs file ev hfail
    cases ev with
    | accepted dl =>
      cases dl with
      | ok bytes => simp [compressOnce, downloadCompressed] at hfail
      | err m => rfl
    | httpFailure st m => rfl
    | reqError m => rfl
  · intro t hstep
    cases hstep with
    | complete i hi =>
      rw [next_results]
      simp [completeTask]
  · intro hK htotal hreach
    obtain ⟨hidx, hlen, hsat, ⟨done, hperm, hres⟩, hsome, hnone⟩ :=
      Inv_reachable K total runFile s hreach
    have hcount : done.length + s.active.length = s.index := by
      simpa using hperm.length_eq
    have hrlen : s.results.length = done.length := by rw [hres]; simp
    refine ⟨?_, by omega, ?_, ?_⟩
    · intro hval
      have hne : s.results.length ≠ total := hnone hval htotal
      have hactne : s.active ≠ [] := by
        intro habs
        have hal : s.active.length = 0 := by rw [habs]; rfl
        by_cases hlt : s.index < total
        · have := hsat hlt
          omega
        · omega
      obtain ⟨i, hi⟩ := List.exists_mem_of_ne_nil s.active hactne
      exact ⟨_, Step.complete s i hi⟩
    · intro hfull
      cases hval : s.resolved with
      | some sum => rfl
      | none => exact absurd hfull (hnone hval htotal)
    · intro sum hsum
      rw [(hsome sum hsum).2]
      rfl

/-- Witness for `failures_recovered_as_data`: an HTTP 500 attempt failure
carries its message as data, and the fresh 1-file batch can still step. -/
theorem failures_recovered_as_data_witness :
    (compressOnce (fun _ => []) "a.png"
        (.httpFailure 500 "InternalServerError")).1.errorMsg.isSome = true ∧
    ((initState 1 1).resolved = none →
      ∃ t, Step 1 1 witnessRunFile (initState 1 1) t) :=
  ⟨(failures_recovered_as_data 1 1 witnessRunFile (initState 1 1)).1
      (fun _ => []) "a.png" (.httpFailure 500 "InternalServerError") rfl,
    ((failures_recovered_as_data 1 1 witnessRunFile (initState 1 1)).2.2
      (by omega) (by omega) Relation.ReflTransGen.refl).1⟩

/-- C4 is false of the code: with an empty file list `compressBatch` never
resolves.  `resolve` is called only inside a completion callback, and the
initial `next()` admits no file, so no callback ever fires: every state
reachable in the zero-file run is unresolved and no step is possible. -/
theorem empty_batch_never_resolves (K : Nat) (runFile : Nat → AttemptResult)
    (s : BatchState) (h : Reachable K 0 runFile s) :
    s.resolved = none ∧ ¬ ∃ t, Step K 0 runFile s t := by
  have hinit : initState K 0 = ⟨0, [], [], none⟩ := rfl
  unfold Reachable at h
  induction h with
  | refl =>
    rw [hinit]
    refine ⟨rfl, ?_⟩
    rintro ⟨t, hstep⟩
    cases hstep with
    | complete i hi => exact List.not_mem_nil i hi
  | tail _ hstep ih => exact (ih.2 ⟨_, hstep⟩).elim

/-- Witness for `empty_batch_never_resolves`, at the defaulted cap 5 and
the initial state itself: `compressBatch([], key, 5, 3)` is already hung. -/
theorem empty_batch_never_resolves_witness :
    (initState 5 0).resolved = none ∧
    ¬ ∃ t, Step 5 0 witnessRunFile (initState 5 0) t :=
  empty_batch_never_resolves 5 witnessRunFile (initState 5 0)
    Relation.ReflTransGen.refl

end TinyPng
